import Mathlib

/-!
Verification of the zutty rendering core (font atlas builder, frame/cell
data model, renderer) against its natural-language specification.

Shallow embedding conventions:
* machine integers are modelled as `Nat`, with `% 256` / `% 65536` applied
  where byte/halfword truncation matters;
* `std::map <uint16_t, AtlasPos>` is modelled as an association list in
  insertion order (the claims under study concern insertion/assignment
  order, which the association list preserves; key lookup is by `find?`);
* the atlas pixel buffer is modelled per glyph cell, as a function from
  grid position to the cell's coverage bitmap (a `List Nat` of
  `px * py` 8-bit coverage samples);
* fallible construction returns `Except String`.

The repository ships the `Font` class declaration (font.h) and the demo
driver (main.cc) with the renderer header (Color/Cell/CharVdev), but not
`font.cc` nor `renderer.cc`; definitions whose doc comment starts with
"Modelled from the spec:" reconstruct those missing implementation parts
from the specification's words.  Everything else is translated directly
from the source files.
-/

set_option autoImplicit false

namespace Zutty

/-- Color record, from the renderer header: three 8-bit channels in
declaration order `red`, `blue`, `green` (blue before green). -/
structure Color where
  red : Nat
  blue : Nat
  green : Nat
  deriving DecidableEq, Repr

/-- Cell record, from the renderer header: 16-bit code point, 16-bit packed
attribute field, foreground color, one pad byte, background color, one pad
byte.  `static_assert (sizeof (Cell) == 12)` in the source. -/
structure Cell where
  uc_pt : Nat
  attrs : Nat
  fg : Color
  fill2_ : Nat
  bg : Color
  fill3_ : Nat
  deriving DecidableEq, Repr

/-- Serialization of a `Color` as it sits in the GPU-uploaded buffer:
the three channel bytes in declaration order (red, blue, green). -/
def Color.toBytes (c : Color) : List Nat :=
  [c.red % 256, c.blue % 256, c.green % 256]

/-- Byte layout of a `Cell` record as uploaded to the GPU buffer
(little-endian halfwords, matching the target platform): code point,
attribute field, fg color, pad, bg color, pad. -/
def Cell.toBytes (c : Cell) : List Nat :=
  [c.uc_pt % 256, c.uc_pt / 256 % 256, c.attrs % 256, c.attrs / 256 % 256]
    ++ c.fg.toBytes ++ [c.fill2_ % 256] ++ c.bg.toBytes ++ [c.fill3_ % 256]

/-- Numeric value of a bit. -/
def bitVal (b : Bool) : Nat := if b then 1 else 0

/-- Modelled from the spec: the packed attribute field encodes at least
bold, underline and inverse as independent bits (the concrete bit
positions live in the missing renderer/shader sources; bits 0, 1, 2 are
used here, with the remaining bits kept in `hi`). -/
def packAttrs (bold underline inverse : Bool) (hi : Nat) : Nat :=
  bitVal bold + 2 * bitVal underline + 4 * bitVal inverse + 8 * hi

/-- Bold attribute bit of a cell (bit 0 of `attrs`). -/
def Cell.bold (c : Cell) : Bool := c.attrs % 2 == 1

/-- Underline attribute bit of a cell (bit 1 of `attrs`). -/
def Cell.underline (c : Cell) : Bool := c.attrs / 2 % 2 == 1

/-- Inverse attribute bit of a cell (bit 2 of `attrs`). -/
def Cell.inverse (c : Cell) : Bool := c.attrs / 4 % 2 == 1

/-- Write the bold bit, keeping every other attribute bit. -/
def Cell.setBold (c : Cell) (b : Bool) : Cell :=
  { c with attrs := packAttrs b c.underline c.inverse (c.attrs / 8) }

/-- Write the underline bit, keeping every other attribute bit. -/
def Cell.setUnderline (c : Cell) (b : Bool) : Cell :=
  { c with attrs := packAttrs c.bold b c.inverse (c.attrs / 8) }

/-- Write the inverse bit, keeping every other attribute bit. -/
def Cell.setInverse (c : Cell) (b : Bool) : Cell :=
  { c with attrs := packAttrs c.bold c.underline b (c.attrs / 8) }

lemma packAttrs_mod_two (b u i : Bool) (hi : Nat) :
    packAttrs b u i hi % 2 = bitVal b := by
  cases b <;> cases u <;> cases i <;> simp [packAttrs, bitVal] <;> omega

lemma packAttrs_div_two_mod_two (b u i : Bool) (hi : Nat) :
    packAttrs b u i hi / 2 % 2 = bitVal u := by
  cases b <;> cases u <;> cases i <;> simp [packAttrs, bitVal] <;> omega

lemma packAttrs_div_four_mod_two (b u i : Bool) (hi : Nat) :
    packAttrs b u i hi / 4 % 2 = bitVal i := by
  cases b <;> cases u <;> cases i <;> simp [packAttrs, bitVal] <;> omega

lemma bitVal_beq_one (b : Bool) : (bitVal b == 1) = b := by
  cases b <;> rfl

lemma Cell.bold_setBold (c : Cell) (b : Bool) : (c.setBold b).bold = b := by
  simp [Cell.bold, Cell.setBold, packAttrs_mod_two, bitVal_beq_one]

lemma Cell.underline_setBold (c : Cell) (b : Bool) :
    (c.setBold b).underline = c.underline := by
  simp [Cell.underline, Cell.setBold, packAttrs_div_two_mod_two, bitVal_beq_one]

lemma Cell.inverse_setBold (c : Cell) (b : Bool) :
    (c.setBold b).inverse = c.inverse := by
  simp [Cell.inverse, Cell.setBold, packAttrs_div_four_mod_two, bitVal_beq_one]

lemma Cell.bold_setUnderline (c : Cell) (b : Bool) :
    (c.setUnderline b).bold = c.bold := by
  simp [Cell.bold, Cell.setUnderline, packAttrs_mod_two, bitVal_beq_one]

lemma Cell.underline_setUnderline (c : Cell) (b : Bool) :
    (c.setUnderline b).underline = b := by
  simp [Cell.underline, Cell.setUnderline, packAttrs_div_two_mod_two,
        bitVal_beq_one]

lemma Cell.inverse_setUnderline (c : Cell) (b : Bool) :
    (c.setUnderline b).inverse = c.inverse := by
  simp [Cell.inverse, Cell.setUnderline, packAttrs_div_four_mod_two,
        bitVal_beq_one]

lemma Cell.bold_setInverse (c : Cell) (b : Bool) :
    (c.setInverse b).bold = c.bold := by
  simp [Cell.bold, Cell.setInverse, packAttrs_mod_two, bitVal_beq_one]

lemma Cell.underline_setInverse (c : Cell) (b : Bool) :
    (c.setInverse b).underline = c.underline := by
  simp [Cell.underline, Cell.setInverse, packAttrs_div_two_mod_two,
        bitVal_beq_one]

lemma Cell.inverse_setInverse (c : Cell) (b : Bool) :
    (c.setInverse b).inverse = b := by
  simp [Cell.inverse, Cell.setInverse, packAttrs_div_four_mod_two,
        bitVal_beq_one]

lemma Cell.toBytes_length (c : Cell) : c.toBytes.length = 12 := by
  simp [Cell.toBytes, Color.toBytes]

/-- Atlas grid position, from font.h: a pair of byte coordinates (x, y).
Position (0,0) is the permanently blank sentinel cell. -/
structure AtlasPos where
  x : Nat
  y : Nat
  deriving DecidableEq, Repr

/-- A loaded font face, as exposed by the rasterization collaborator
(FreeType in the source): uniform glyph cell metrics and, per supported
code point, the rasterized coverage bitmap of `px * py` samples. -/
structure Face where
  px : Nat
  py : Nat
  glyphs : List (Nat × List Nat)
  deriving DecidableEq, Repr

/-- Font/atlas object, from font.h: glyph cell size `px`/`py`, atlas grid
size `nx`/`ny` in cells, the atlas pixel data (modelled per grid cell),
the code-point map in insertion order, the set of code points with a
mapped glyph, and the `atlas_seq` counter (starts at 1 so that cell (0,0)
stays blank). -/
structure Font where
  px : Nat
  py : Nat
  nx : Nat
  ny : Nat
  atlasCells : AtlasPos → List Nat
  atlasMap : List (Nat × AtlasPos)
  supportedCodes : List Nat
  atlas_seq : Nat

def Font.getPx (f : Font) : Nat := f.px

def Font.getPy (f : Font) : Nat := f.py

def Font.getNx (f : Font) : Nat := f.nx

def Font.getNy (f : Font) : Nat := f.ny

def Font.getAtlasMap (f : Font) : List (Nat × AtlasPos) := f.atlasMap

/-- Modelled from the spec: accessor for "the full set of code points that
have a mapped (non-blank) glyph" (declared in the font.h revision used by
main.cc's `demo_resize`, absent from the shipped header snapshot). -/
def Font.getSupportedCodes (f : Font) : List Nat := f.supportedCodes

/-- Key lookup in the code-point map. -/
def lookupPos (m : List (Nat × AtlasPos)) (cp : Nat) : Option AtlasPos :=
  (m.find? (fun e => e.1 == cp)).map (fun e => e.2)

/-- Atlas map lookup as consumed by the shader: a miss resolves to the
blank sentinel position (0,0). -/
def atlasLookup (m : List (Nat × AtlasPos)) (cp : Nat) : AtlasPos :=
  (lookupPos m cp).getD ⟨0, 0⟩

/-- An all-zero coverage bitmap: the blank glyph. -/
def blankGlyph (px py : Nat) : List Nat := List.replicate (px * py) 0

/-- Grid position of atlas sequence number `seq`: the next free grid slot
in (x, y) order, row-major over a grid of width `nx`. -/
def seqPos (nx seq : Nat) : AtlasPos := ⟨seq % nx, seq / nx⟩

/-- Functional update of the per-cell atlas pixel data. -/
def writeCell (cells : AtlasPos → List Nat) (pos : AtlasPos) (bmp : List Nat) :
    AtlasPos → List Nat :=
  fun p => if p = pos then bmp else cells p

/-- Mutable state of an atlas load: the map, the `atlas_seq` counter and
the atlas pixel data built so far. -/
structure LoadSt where
  map : List (Nat × AtlasPos)
  seq : Nat
  cells : AtlasPos → List Nat

/-- Modelled from the spec: one step of the primary load loop (font.cc's
`load`/`loadFace` are missing).  A code point seen for the first time is
assigned the next sequence position (the counter starts at 1, leaving the
blank at (0,0)) and its glyph bitmap is written to that atlas cell; a code
point already mapped is left alone. -/
def loadStep (nx : Nat) (st : LoadSt) (g : Nat × List Nat) : LoadSt :=
  if (lookupPos st.map g.1).isSome then st
  else { map := st.map ++ [(g.1, seqPos nx st.seq)]
         seq := st.seq + 1
         cells := writeCell st.cells (seqPos nx st.seq) g.2 }

/-- Initial load state: empty map, sequence counter 1, every atlas cell
blank. -/
def initSt (px py : Nat) : LoadSt :=
  { map := [], seq := 1, cells := fun _ => blankGlyph px py }

/-- Modelled from the spec: the atlas grid is chosen "large enough to hold
the distinct glyphs advertised by the face" plus the reserved blank cell;
rows of 16 cells are used here. -/
def atlasGrid (nGlyphs : Nat) : Nat × Nat := (16, (nGlyphs + 16) / 16)

/-- Modelled from the spec: primary font construction (font.cc missing).
Determines the atlas geometry from the face, then folds the load step over
the face's glyphs, populating the map and the atlas pixel data. -/
def mkFont (face : Face) : Font :=
  let grid := atlasGrid face.glyphs.length
  let st := face.glyphs.foldl (loadStep grid.1) (initSt face.px face.py)
  { px := face.px, py := face.py, nx := grid.1, ny := grid.2
    atlasCells := st.cells, atlasMap := st.map
    supportedCodes := st.map.map (fun e => e.1)
    atlas_seq := st.seq }

/-- Modelled from the spec: one step of the overlay load loop of an
alternate font.  A code point the alternate face supports overwrites the
atlas cell the (copied) map assigns to it; a code point with no cell in
the map is skipped, so the map and the sequence counter never change. -/
def overlayStep (st : LoadSt) (g : Nat × List Nat) : LoadSt :=
  match lookupPos st.map g.1 with
  | some pos => { st with cells := writeCell st.cells pos g.2 }
  | none => st

/-- Modelled from the spec: alternate font construction (font.cc missing).
The geometry the alternate face yields must equal the primary's
(px, py, nx, ny); a mismatch is a fatal construction error.  On success
the alternate starts from a copy of the primary's atlas pixel data and
map, then overlays its own glyphs. -/
def mkAlt (face : Face) (pri : Font) : Except String Font :=
  let grid := atlasGrid face.glyphs.length
  if face.px = pri.px ∧ face.py = pri.py ∧ grid.1 = pri.nx ∧ grid.2 = pri.ny
  then
    let st := face.glyphs.foldl overlayStep
      { map := pri.atlasMap, seq := pri.atlas_seq, cells := pri.atlasCells }
    .ok { pri with atlasCells := st.cells }
  else .error ("Error: failed to load alt font: geometry mismatch")

/-- Glyph coverage bitmap a code point resolves to: the atlas cell at the
looked-up position (the blank cell on a lookup miss). -/
def glyphAt (f : Font) (cp : Nat) : List Nat :=
  f.atlasCells (atlasLookup f.atlasMap cp)

/-- Default-constructed cell value standing in for the indeterminate
contents of a freshly allocated `new Cell[n]` buffer; the producer is
required to initialize every cell it uses. -/
def defaultCell : Cell := { uc_pt := 0, attrs := 0, fg := ⟨0, 0, 0⟩,
                            fill2_ := 0, bg := ⟨0, 0, 0⟩, fill3_ := 0 }

/-- Frame record, from the renderer interface used by main.cc: pixel
dimensions of the drawing surface, derived character grid dimensions, and
the flat cell buffer. -/
structure Frame where
  pxWidth : Nat
  pxHeight : Nat
  nCols : Nat
  nRows : Nat
  cells : List Cell
  deriving DecidableEq, Repr

/-- Resize handler, from main.cc: stores the new pixel dimensions, derives
the character grid by integer division by the primary font's glyph cell
size, and allocates a fresh buffer of exactly `nRows * nCols` cells (the
old buffer value is not touched; the demo producer fills the fresh buffer
only after this allocation). -/
def resize (priFont : Font) (f : Frame) (width height : Nat) : Frame :=
  let nCols := width / priFont.getPx
  let nRows := height / priFont.getPy
  { pxWidth := width
    pxHeight := height
    nCols := nCols
    nRows := nRows
    cells := List.replicate (nRows * nCols) defaultCell }

/-- Default character geometry, from main.cc: `geomCols = 80`. -/
def geomCols : Nat := 80

/-- Default character geometry, from main.cc: `geomRows = 25`. -/
def geomRows : Nat := 25

/-- Window surface width, from main.cc: `geomCols * priFont->getPx ()`. -/
def winWidth (cols : Nat) (priFont : Font) : Nat := cols * priFont.getPx

/-- Window surface height, from main.cc: `geomRows * priFont->getPy ()`. -/
def winHeight (rows : Nat) (priFont : Font) : Nat := rows * priFont.getPy

/-- Modelled from the spec: color of one pixel inside a glyph cell as
produced by the compute pass (renderer sources missing): underline paints
the bottom pixel row in the (inverse-adjusted) foreground; otherwise the
glyph coverage sample selects foreground or background. -/
def renderCellPixel (f : Font) (cell : Cell) (i : Nat) : Color :=
  let fgc := if cell.inverse then cell.bg else cell.fg
  let bgc := if cell.inverse then cell.fg else cell.bg
  if cell.underline ∧ i / f.px = f.py - 1 then fgc
  else if (glyphAt f cell.uc_pt).getD i 0 ≠ 0 then fgc else bgc

/-- Modelled from the spec: one compute-shader invocation (renderer
sources missing).  The covering cell is located from the pixel
coordinates; a bold cell samples the alternate atlas (which holds the
primary's glyph wherever the alternate face has none), any pixel in the
undrawn margin renders the blank glyph over black. -/
def rasterPixel (pri alt : Font) (f : Frame) (x y : Nat) : Color :=
  let col := x / pri.px
  let row := y / pri.py
  if row < f.nRows ∧ col < f.nCols then
    let cell := (f.cells.getD (row * f.nCols + col) defaultCell)
    let fnt := if cell.bold then alt else pri
    renderCellPixel fnt cell ((y % pri.py) * pri.px + (x % pri.px))
  else ⟨0, 0, 0⟩

/-- Modelled from the spec: renderer state (renderer sources missing) —
the two loaded fonts, the current frame and the draw counter used only
for diagnostics. -/
structure RendererState where
  pri : Font
  alt : Font
  frame : Frame
  drawCount : Nat

/-- Modelled from the spec: the full output image of the compute pass,
row-major over the frame's pixel surface. -/
def rasterize (s : RendererState) : List Color :=
  (List.range s.frame.pxHeight).flatMap
    (fun y => (List.range s.frame.pxWidth).map
      (fun x => rasterPixel s.pri s.alt s.frame x y))

/-- Modelled from the spec: `Renderer::update` publishes a new frame to
the render thread. -/
def RendererState.update (s : RendererState) (f : Frame) : RendererState :=
  { s with frame := f }

/-- Modelled from the spec: one pass of the render thread — rasterize the
current frame, present the output, bump the draw counter. -/
def renderPass (s : RendererState) : RendererState × List Color :=
  ({ s with drawCount := s.drawCount + 1 }, rasterize s)

/-- The sublist of `l` whose elements are not in `seen` and occur here for
the first time, in order of first encounter. -/
def newCodes (seen : List Nat) : List Nat → List Nat
  | [] => []
  | c :: rest =>
    if c ∈ seen then newCodes seen rest
    else c :: newCodes (c :: seen) rest

/-- The map entries built by assigning consecutive sequence positions,
starting at `s`, to the given code points in order. -/
def assignFrom (nx s : Nat) : List Nat → List (Nat × AtlasPos)
  | [] => []
  | c :: rest => (c, seqPos nx s) :: assignFrom nx (s + 1) rest

lemma lookupPos_isSome_iff (m : List (Nat × AtlasPos)) (cp : Nat) :
    (lookupPos m cp).isSome ↔ cp ∈ m.map (fun e => e.1) := by
  simp only [lookupPos, Option.isSome_map', List.find?_isSome, List.mem_map]
  constructor
  · rintro ⟨e, he, hp⟩
    exact ⟨e, he, (beq_iff_eq.mp hp).symm ▸ rfl⟩
  · rintro ⟨e, he, hp⟩
    exact ⟨e, he, beq_iff_eq.mpr hp⟩

lemma lookupPos_eq_none (m : List (Nat × AtlasPos)) (cp : Nat)
    (h : cp ∉ m.map (fun e => e.1)) : lookupPos m cp = none := by
  have := (lookupPos_isSome_iff m cp).not.mpr h
  exact Option.not_isSome_iff_eq_none.mp this

lemma lookupPos_some_mem (m : List (Nat × AtlasPos)) (cp : Nat)
    (pos : AtlasPos) (h : lookupPos m cp = some pos) : (cp, pos) ∈ m := by
  simp only [lookupPos, Option.map_eq_some'] at h
  obtain ⟨e, he, hpos⟩ := h
  have hmem := List.mem_of_find?_eq_some he
  have hkey0 := List.find?_some he
  have hkey : e.1 = cp := by simpa using hkey0
  have : e = (cp, pos) := by
    cases e
    simp only at hkey hpos
    simp [hkey, hpos]
  exact this ▸ hmem

lemma newCodes_congr (s1 s2 : List Nat) (l : List Nat)
    (h : ∀ x, x ∈ s1 ↔ x ∈ s2) : newCodes s1 l = newCodes s2 l := by
  induction l generalizing s1 s2 with
  | nil => rfl
  | cons c rest ih =>
    simp only [newCodes]
    by_cases hc : c ∈ s1
    · rw [if_pos hc, if_pos ((h c).mp hc)]
      exact ih s1 s2 h
    · rw [if_neg hc, if_neg (fun hc2 => hc ((h c).mpr hc2))]
      refine congrArg _ (ih (c :: s1) (c :: s2) (fun x => ?_))
      simp [h x]

lemma newCodes_subset (seen l : List Nat) :
    ∀ x ∈ newCodes seen l, x ∈ l := by
  induction l generalizing seen with
  | nil => simp [newCodes]
  | cons c rest ih =>
    intro x hx
    simp only [newCodes] at hx
    by_cases hc : c ∈ seen
    · rw [if_pos hc] at hx
      exact List.mem_cons_of_mem c (ih seen x hx)
    · rw [if_neg hc] at hx
      rcases List.mem_cons.mp hx with h | h
      · exact h ▸ List.mem_cons_self c rest
      · exact List.mem_cons_of_mem c (ih (c :: seen) x h)

lemma assignFrom_keys (nx s : Nat) (l : List Nat) :
    (assignFrom nx s l).map (fun e => e.1) = l := by
  induction l generalizing s with
  | nil => rfl
  | cons c rest ih => simp [assignFrom, ih]

lemma seqPos_inj (nx a b : Nat) (h : seqPos nx a = seqPos nx b) : a = b := by
  simp only [seqPos, AtlasPos.mk.injEq] at h
  calc a = nx * (a / nx) + a % nx := (Nat.div_add_mod a nx).symm
    _ = nx * (b / nx) + b % nx := by rw [h.1, h.2]
    _ = b := Nat.div_add_mod b nx

lemma seqPos_ne_blank (nx s : Nat) (h : 1 ≤ s) :
    seqPos nx s ≠ ⟨0, 0⟩ := by
  intro heq
  have : s = 0 := seqPos_inj nx s 0 (by
    simpa [seqPos, Nat.zero_mod, Nat.zero_div] using heq)
  omega

lemma mem_assignFrom_seq (nx : Nat) (l : List Nat) :
    ∀ (s : Nat) (e : Nat × AtlasPos), e ∈ assignFrom nx s l →
      ∃ t, s ≤ t ∧ e.2 = seqPos nx t := by
  induction l with
  | nil => simp [assignFrom]
  | cons c rest ih =>
    intro s e he
    rcases List.mem_cons.mp he with h | h
    · exact ⟨s, le_refl s, by rw [h]⟩
    · obtain ⟨t, hst, hpos⟩ := ih (s + 1) e h
      exact ⟨t, by omega, hpos⟩

/-- Distinct positions identify entries: two entries of an assigned map
that share the atlas position share the code point. -/
lemma assignFrom_posInj (nx : Nat) (l : List Nat) :
    ∀ (s : Nat) (e1 e2 : Nat × AtlasPos), e1 ∈ assignFrom nx s l →
      e2 ∈ assignFrom nx s l → e1.2 = e2.2 → e1.1 = e2.1 := by
  induction l with
  | nil => simp [assignFrom]
  | cons c rest ih =>
    intro s e1 e2 h1 h2 hpos
    rcases List.mem_cons.mp h1 with h1 | h1 <;>
      rcases List.mem_cons.mp h2 with h2 | h2
    · rw [h1, h2]
    · obtain ⟨t, hst, hp⟩ := mem_assignFrom_seq nx rest (s + 1) e2 h2
      have : s = t := seqPos_inj nx s t (by rw [← hp, ← hpos, h1])
      omega
    · obtain ⟨t, hst, hp⟩ := mem_assignFrom_seq nx rest (s + 1) e1 h1
      have : s = t := seqPos_inj nx s t (by rw [← hp, hpos, h2])
      omega
    · exact ih (s + 1) e1 e2 h1 h2 hpos

/-- Shape of the map built by the primary load fold: the entries append,
in order of first encounter, the fresh code points with consecutive
sequence positions starting at the state's counter. -/
lemma foldl_loadStep_map (nx : Nat) (gs : List (Nat × List Nat)) :
    ∀ st : LoadSt, (gs.foldl (loadStep nx) st).map =
      st.map ++ assignFrom nx st.seq
        (newCodes (st.map.map (fun e => e.1)) (gs.map (fun g => g.1))) := by
  induction gs with
  | nil => intro st; simp [newCodes, assignFrom]
  | cons g rest ih =>
    intro st
    simp only [List.foldl_cons, List.map_cons, newCodes]
    by_cases h : (lookupPos st.map g.1).isSome
    · rw [if_pos ((lookupPos_isSome_iff st.map g.1).mp h)]
      rw [loadStep, if_pos h]
      exact ih st
    · rw [if_neg (fun hmem =>
        h ((lookupPos_isSome_iff st.map g.1).mpr hmem))]
      rw [loadStep, if_neg h]
      rw [ih _]
      simp only [List.map_append, List.map_cons, List.map_nil]
      rw [newCodes_congr
        ((st.map.map (fun e => e.1)) ++ [g.1]) (g.1 :: st.map.map (fun e => e.1))
        (rest.map (fun g => g.1)) (fun x => by simp [or_comm])]
      simp [assignFrom, List.append_assoc]

/-- The sequence counter always exceeds the number of entries by its
initial offset: concretely we track `seq = map.length + 1`. -/
lemma foldl_loadStep_seq (nx : Nat) (gs : List (Nat × List Nat)) :
    ∀ st : LoadSt, st.seq = st.map.length + 1 →
      (gs.foldl (loadStep nx) st).seq =
        (gs.foldl (loadStep nx) st).map.length + 1 := by
  induction gs with
  | nil => intro st h; simpa using h
  | cons g rest ih =>
    intro st h
    simp only [List.foldl_cons]
    refine ih (loadStep nx st g) ?_
    rw [loadStep]
    by_cases hs : (lookupPos st.map g.1).isSome
    · rw [if_pos hs]; exact h
    · rw [if_neg hs]; simp [h]

/-- Invariant of a load state: the counter has passed the reserved blank,
no map entry targets (0,0), and atlas cell (0,0) is still blank. -/
def goodSt (px py : Nat) (st : LoadSt) : Prop :=
  1 ≤ st.seq ∧ (∀ e ∈ st.map, e.2 ≠ ⟨0, 0⟩) ∧
    st.cells ⟨0, 0⟩ = blankGlyph px py

lemma initSt_goodSt (px py : Nat) : goodSt px py (initSt px py) := by
  refine ⟨le_refl 1, ?_, rfl⟩
  simp [initSt]

lemma loadStep_goodSt (px py nx : Nat) (st : LoadSt) (g : Nat × List Nat)
    (h : goodSt px py st) : goodSt px py (loadStep nx st g) := by
  obtain ⟨hseq, hmap, hcell⟩ := h
  rw [loadStep]
  by_cases hs : (lookupPos st.map g.1).isSome
  · rw [if_pos hs]; exact ⟨hseq, hmap, hcell⟩
  · rw [if_neg hs]
    refine ⟨by simp, ?_, ?_⟩
    · intro e he
      rcases List.mem_append.mp he with h | h
      · exact hmap e h
      · simp only [List.mem_singleton] at h
        rw [h]
        exact seqPos_ne_blank nx st.seq hseq
    · simp only [writeCell]
      rw [if_neg (seqPos_ne_blank nx st.seq hseq).symm]
      exact hcell

lemma foldl_loadStep_goodSt (px py nx : Nat) (gs : List (Nat × List Nat)) :
    ∀ st : LoadSt, goodSt px py st →
      goodSt px py (gs.foldl (loadStep nx) st) := by
  induction gs with
  | nil => intro st h; exact h
  | cons g rest ih =>
    intro st h
    exact ih (loadStep nx st g) (loadStep_goodSt px py nx st g h)

lemma overlayStep_map (st : LoadSt) (g : Nat × List Nat) :
    (overlayStep st g).map = st.map := by
  rw [overlayStep]
  cases lookupPos st.map g.1 <;> rfl

lemma foldl_overlayStep_map (gs : List (Nat × List Nat)) :
    ∀ st : LoadSt, (gs.foldl overlayStep st).map = st.map := by
  induction gs with
  | nil => intro st; rfl
  | cons g rest ih =>
    intro st
    simp only [List.foldl_cons]
    rw [ih (overlayStep st g), overlayStep_map]

/-- The overlay fold leaves every atlas cell alone whose position is not
the looked-up target of any overlaid code point. -/
lemma foldl_overlayStep_cells_preserved (gs : List (Nat × List Nat)) :
    ∀ (st : LoadSt) (pos : AtlasPos),
      (∀ g ∈ gs, ∀ p, lookupPos st.map g.1 = some p → p ≠ pos) →
      (gs.foldl overlayStep st).cells pos = st.cells pos := by
  induction gs with
  | nil => intro st pos _; rfl
  | cons g rest ih =>
    intro st pos h
    simp only [List.foldl_cons]
    have hmap : (overlayStep st g).map = st.map := overlayStep_map st g
    rw [ih (overlayStep st g) pos (fun g' hg' p hp =>
      h g' (List.mem_cons_of_mem g hg') p (hmap ▸ hp))]
    rw [overlayStep]
    cases hl : lookupPos st.map g.1 with
    | none => rfl
    | some p =>
      simp only [writeCell]
      rw [if_neg (h g (List.mem_cons_self g rest) p hl).symm]

/-- Overlay writes the alternate's glyph: provided the overlaid code
points are distinct and map positions identify code points, the final
atlas cell at a supported code point's mapped position holds that code
point's alternate bitmap. -/
lemma foldl_overlayStep_cells_write (gs : List (Nat × List Nat)) :
    ∀ (st : LoadSt) (cp : Nat) (bmp : List Nat) (pos : AtlasPos),
      (gs.map (fun g => g.1)).Nodup →
      (∀ e1 ∈ st.map, ∀ e2 ∈ st.map, e1.2 = e2.2 → e1.1 = e2.1) →
      (cp, bmp) ∈ gs → lookupPos st.map cp = some pos →
      (gs.foldl overlayStep st).cells pos = bmp := by
  induction gs with
  | nil =>
    intro st cp bmp pos _ _ hmem _
    cases hmem
  | cons g rest ih =>
    intro st cp bmp pos hnodup hinj hmem hl
    simp only [List.map_cons, List.nodup_cons] at hnodup
    simp only [List.foldl_cons]
    rcases List.mem_cons.mp hmem with h | h
    · have hg : g = (cp, bmp) := h.symm
      subst hg
      have hmap : (overlayStep st (cp, bmp)).map = st.map :=
        overlayStep_map st (cp, bmp)
      rw [foldl_overlayStep_cells_preserved rest (overlayStep st (cp, bmp))
        pos ?_]
      · rw [overlayStep]
        rw [show lookupPos st.map (cp, bmp).1 = some pos from hl]
        simp [writeCell]
      · intro g' hg' p hp heq
        rw [hmap] at hp
        rw [heq] at hp
        have h1 := lookupPos_some_mem st.map cp pos hl
        have h2 := lookupPos_some_mem st.map g'.1 pos hp
        have : g'.1 = cp := hinj (g'.1, pos) h2 (cp, pos) h1 rfl
        exact hnodup.1 (this ▸ List.mem_map_of_mem (fun g => g.1) hg')
    · have hmap : (overlayStep st g).map = st.map := overlayStep_map st g
      exact ih (overlayStep st g) cp bmp pos hnodup.2 (hmap ▸ hinj) h
        (hmap ▸ hl)

lemma assignFrom_length (nx : Nat) (l : List Nat) :
    ∀ s, (assignFrom nx s l).length = l.length := by
  induction l with
  | nil => intro s; rfl
  | cons c rest ih => intro s; simp [assignFrom, ih]

/-- The final state of the primary load fold, by definition of `mkFont`. -/
def loadResult (face : Face) : LoadSt :=
  face.glyphs.foldl (loadStep (atlasGrid face.glyphs.length).1)
    (initSt face.px face.py)

lemma mkFont_atlasMap (face : Face) :
    (mkFont face).atlasMap = (loadResult face).map := rfl

lemma mkFont_atlasCells (face : Face) :
    (mkFont face).atlasCells = (loadResult face).cells := rfl

lemma mkFont_atlas_seq (face : Face) :
    (mkFont face).atlas_seq = (loadResult face).seq := rfl

lemma mkFont_supportedCodes (face : Face) :
    (mkFont face).supportedCodes = (loadResult face).map.map (fun e => e.1) :=
  rfl

lemma mkFont_map_shape (face : Face) :
    (mkFont face).atlasMap =
      assignFrom (atlasGrid face.glyphs.length).1 1
        (newCodes [] (face.glyphs.map (fun g => g.1))) := by
  rw [mkFont_atlasMap, loadResult,
      foldl_loadStep_map (atlasGrid face.glyphs.length).1 face.glyphs
        (initSt face.px face.py)]
  simp [initSt]

lemma mkFont_goodSt (face : Face) :
    goodSt face.px face.py (loadResult face) :=
  foldl_loadStep_goodSt face.px face.py (atlasGrid face.glyphs.length).1
    face.glyphs (initSt face.px face.py) (initSt_goodSt face.px face.py)

lemma mkFont_pos_ne_blank (face : Face) :
    ∀ e ∈ (mkFont face).atlasMap, e.2 ≠ ⟨0, 0⟩ := by
  rw [mkFont_atlasMap]
  exact (mkFont_goodSt face).2.1

lemma mkFont_blank_cell (face : Face) :
    (mkFont face).atlasCells ⟨0, 0⟩ = blankGlyph face.px face.py := by
  rw [mkFont_atlasCells]
  exact (mkFont_goodSt face).2.2

lemma mkFont_posInj (face : Face) :
    ∀ e1 ∈ (mkFont face).atlasMap, ∀ e2 ∈ (mkFont face).atlasMap,
      e1.2 = e2.2 → e1.1 = e2.1 := by
  intro e1 h1 e2 h2 hpos
  rw [mkFont_map_shape] at h1 h2
  exact assignFrom_posInj (atlasGrid face.glyphs.length).1
    (newCodes [] (face.glyphs.map (fun g => g.1))) 1 e1 e2 h1 h2 hpos

lemma mkFont_map_keys_subset (face : Face) :
    ∀ cp ∈ (mkFont face).atlasMap.map (fun e => e.1),
      cp ∈ face.glyphs.map (fun g => g.1) := by
  intro cp hcp
  rw [mkFont_map_shape, assignFrom_keys] at hcp
  exact newCodes_subset [] (face.glyphs.map (fun g => g.1)) cp hcp

/-- The atlas cell contents of an alternate font: the primary's cells with
the alternate face's glyphs overlaid. -/
def overlayCells (face : Face) (pri : Font) : AtlasPos → List Nat :=
  (face.glyphs.foldl overlayStep
    { map := pri.atlasMap, seq := pri.atlas_seq, cells := pri.atlasCells }).cells

/-- The geometry-compatibility condition checked by `mkAlt`. -/
def geomMatch (face : Face) (pri : Font) : Prop :=
  face.px = pri.px ∧ face.py = pri.py ∧
    (atlasGrid face.glyphs.length).1 = pri.nx ∧
    (atlasGrid face.glyphs.length).2 = pri.ny

instance (face : Face) (pri : Font) : Decidable (geomMatch face pri) := by
  unfold geomMatch
  infer_instance

lemma mkAlt_eq_ite (face : Face) (pri : Font) :
    mkAlt face pri =
      if geomMatch face pri
      then .ok { pri with atlasCells := overlayCells face pri }
      else .error ("Error: failed to load alt font: geometry mismatch") :=
  rfl

lemma mkAlt_ok_eq (face : Face) (pri : Font) (alt : Font)
    (h : mkAlt face pri = .ok alt) :
    alt = { pri with atlasCells := overlayCells face pri } := by
  rw [mkAlt_eq_ite] at h
  by_cases hg : geomMatch face pri
  · rw [if_pos hg] at h
    exact (Except.ok.inj h).symm
  · rw [if_neg hg] at h
    cases h

lemma mkAlt_ok_geom (face : Face) (pri : Font) (alt : Font)
    (h : mkAlt face pri = .ok alt) : geomMatch face pri := by
  rw [mkAlt_eq_ite] at h
  by_cases hg : geomMatch face pri
  · exact hg
  · rw [if_neg hg] at h
    cases h

lemma mkAlt_mismatch_error (face : Face) (pri : Font)
    (h : ¬ geomMatch face pri) :
    mkAlt face pri =
      .error ("Error: failed to load alt font: geometry mismatch") := by
  rw [mkAlt_eq_ite, if_neg h]

lemma overlayCells_blank (face : Face) (pri : Font)
    (hm : ∀ e ∈ pri.atlasMap, e.2 ≠ ⟨0, 0⟩) :
    overlayCells face pri ⟨0, 0⟩ = pri.atlasCells ⟨0, 0⟩ := by
  refine foldl_overlayStep_cells_preserved face.glyphs _ ⟨0, 0⟩ ?_
  intro g _ p hp heq
  have := lookupPos_some_mem pri.atlasMap g.1 p hp
  exact hm (g.1, p) this heq

/-- An overlaid atlas is unchanged at the resolved position of any code
point the alternate face does not support. -/
lemma overlayCells_unsupported (face : Face) (pri : Font) (cp : Nat)
    (hm : ∀ e ∈ pri.atlasMap, e.2 ≠ ⟨0, 0⟩)
    (hinj : ∀ e1 ∈ pri.atlasMap, ∀ e2 ∈ pri.atlasMap,
      e1.2 = e2.2 → e1.1 = e2.1)
    (hcp : cp ∉ face.glyphs.map (fun g => g.1)) :
    overlayCells face pri (atlasLookup pri.atlasMap cp) =
      pri.atlasCells (atlasLookup pri.atlasMap cp) := by
  refine foldl_overlayStep_cells_preserved face.glyphs _ _ ?_
  intro g hg p hp heq
  cases hl : lookupPos pri.atlasMap cp with
  | none =>
    rw [atlasLookup, hl] at heq
    have := lookupPos_some_mem pri.atlasMap g.1 p hp
    exact hm (g.1, p) this (by simpa using heq)
  | some pos =>
    rw [atlasLookup, hl] at heq
    simp only [Option.getD_some] at heq
    have h1 := lookupPos_some_mem pri.atlasMap g.1 p hp
    have h2 := lookupPos_some_mem pri.atlasMap cp pos hl
    have hkey : g.1 = cp := hinj (g.1, p) h1 (cp, pos) h2 (by simp [heq])
    exact hcp (hkey ▸ List.mem_map_of_mem (fun g => g.1) hg)

lemma getD_replicate_zero (n i : Nat) :
    (List.replicate n (0 : Nat)).getD i 0 = 0 := by
  simp [List.getD]

/-- C1 (claim theorem): for a code point with no glyph in either loaded
font, the merged atlas map lookup resolves to the blank sentinel (0,0);
no map entry ever targets (0,0); atlas cell (0,0) is the all-zero blank;
and rendering a cell carrying such a code point (attributes clear)
produces only the cell's background color — no visible glyph pixels. -/
theorem C1_missing_glyph_blank (priFace altFace : Face) (alt : Font)
    (halt : mkAlt altFace (mkFont priFace) = .ok alt) (cp : Nat)
    (hpri : cp ∉ priFace.glyphs.map (fun g => g.1))
    (haltg : cp ∉ altFace.glyphs.map (fun g => g.1))
    (cell : Cell) (hcp : cell.uc_pt = cp) (hattrs : cell.attrs = 0) :
    atlasLookup alt.atlasMap cp = ⟨0, 0⟩ ∧
    (∀ e ∈ alt.atlasMap, e.2 ≠ ⟨0, 0⟩) ∧
    alt.atlasCells ⟨0, 0⟩ = blankGlyph priFace.px priFace.py ∧
    (∀ i, renderCellPixel alt cell i = cell.bg) := by
  have halt_eq := mkAlt_ok_eq altFace (mkFont priFace) alt halt
  subst halt_eq
  have hkeys : cp ∉ (mkFont priFace).atlasMap.map (fun e => e.1) :=
    fun hmem => hpri (mkFont_map_keys_subset priFace cp hmem)
  have hnone : lookupPos (mkFont priFace).atlasMap cp = none :=
    lookupPos_eq_none (mkFont priFace).atlasMap cp hkeys
  have hlook : atlasLookup (mkFont priFace).atlasMap cp = ⟨0, 0⟩ := by
    rw [atlasLookup, hnone]; rfl
  have hblank : overlayCells altFace (mkFont priFace) ⟨0, 0⟩ =
      blankGlyph priFace.px priFace.py := by
    rw [overlayCells_blank altFace (mkFont priFace)
      (mkFont_pos_ne_blank priFace)]
    exact mkFont_blank_cell priFace
  refine ⟨hlook, mkFont_pos_ne_blank priFace, hblank, ?_⟩
  intro i
  have hunderline : cell.underline = false := by
    simp [Cell.underline, hattrs]
  have hinverse : cell.inverse = false := by
    simp [Cell.inverse, hattrs]
  have hglyph : glyphAt { mkFont priFace with
      atlasCells := overlayCells altFace (mkFont priFace) } cell.uc_pt =
      blankGlyph priFace.px priFace.py := by
    simp only [glyphAt, hcp]
    rw [show ({ mkFont priFace with
        atlasCells := overlayCells altFace (mkFont priFace) } : Font).atlasMap
      = (mkFont priFace).atlasMap from rfl]
    rw [hlook]
    exact hblank
  rw [renderCellPixel]
  simp only [hunderline, hinverse, hglyph, blankGlyph, getD_replicate_zero]
  simp

/-- C2 (claim theorem): constructing an alternate font over a primary
whose face yields different atlas geometry (px, py, nx, ny) fails with a
fatal construction error, and no alternate Font value is produced. -/
theorem C2_alt_geometry_mismatch (face : Face) (pri : Font)
    (h : ¬ geomMatch face pri) :
    mkAlt face pri =
      .error ("Error: failed to load alt font: geometry mismatch") ∧
    ∀ g : Font, mkAlt face pri ≠ .ok g := by
  refine ⟨mkAlt_mismatch_error face pri h, ?_⟩
  intro g hg
  rw [mkAlt_mismatch_error face pri h] at hg
  cases hg

/-- C3 (claim theorem): an alternate font starts from a copy of the
primary's code-point map (and supported-code set); every code point the
alternate face supports and that has an atlas cell gets that cell
overwritten with the alternate's glyph; every code point the alternate
face does not support still resolves to the primary's glyph, or to the
blank if the primary has none either. -/
theorem C3_alt_overlay_merge (priFace altFace : Face) (alt : Font)
    (halt : mkAlt altFace (mkFont priFace) = .ok alt)
    (hnodup : (altFace.glyphs.map (fun g => g.1)).Nodup) :
    alt.atlasMap = (mkFont priFace).atlasMap ∧
    alt.supportedCodes = (mkFont priFace).supportedCodes ∧
    (∀ cp bmp, (cp, bmp) ∈ altFace.glyphs →
      ∀ pos, lookupPos (mkFont priFace).atlasMap cp = some pos →
        alt.atlasCells pos = bmp ∧ glyphAt alt cp = bmp) ∧
    (∀ cp, cp ∉ altFace.glyphs.map (fun g => g.1) →
      glyphAt alt cp = glyphAt (mkFont priFace) cp) ∧
    (∀ cp, cp ∉ altFace.glyphs.map (fun g => g.1) →
      cp ∉ priFace.glyphs.map (fun g => g.1) →
      glyphAt alt cp = blankGlyph priFace.px priFace.py) := by
  have halt_eq := mkAlt_ok_eq altFace (mkFont priFace) alt halt
  subst halt_eq
  have hwrite : ∀ cp bmp, (cp, bmp) ∈ altFace.glyphs →
      ∀ pos, lookupPos (mkFont priFace).atlasMap cp = some pos →
        overlayCells altFace (mkFont priFace) pos = bmp := by
    intro cp bmp hmem pos hl
    exact foldl_overlayStep_cells_write altFace.glyphs _ cp bmp pos hnodup
      (mkFont_posInj priFace) hmem hl
  have hsame : ∀ cp, cp ∉ altFace.glyphs.map (fun g => g.1) →
      glyphAt { mkFont priFace with
        atlasCells := overlayCells altFace (mkFont priFace) } cp =
      glyphAt (mkFont priFace) cp := by
    intro cp hcp
    simp only [glyphAt]
    exact overlayCells_unsupported altFace (mkFont priFace) cp
      (mkFont_pos_ne_blank priFace) (mkFont_posInj priFace) hcp
  refine ⟨rfl, rfl, ?_, hsame, ?_⟩
  · intro cp bmp hmem pos hl
    refine ⟨hwrite cp bmp hmem pos hl, ?_⟩
    simp only [glyphAt, atlasLookup]
    rw [show ({ mkFont priFace with
        atlasCells := overlayCells altFace (mkFont priFace) } : Font).atlasMap
      = (mkFont priFace).atlasMap from rfl]
    rw [hl]
    exact hwrite cp bmp hmem pos hl
  · intro cp haltcp hpricp
    rw [hsame cp haltcp]
    have hkeys : cp ∉ (mkFont priFace).atlasMap.map (fun e => e.1) :=
      fun hmem => hpricp (mkFont_map_keys_subset priFace cp hmem)
    have hnone : lookupPos (mkFont priFace).atlasMap cp = none :=
      lookupPos_eq_none (mkFont priFace).atlasMap cp hkeys
    simp only [glyphAt, atlasLookup, hnone, Option.getD_none]
    exact mkFont_blank_cell priFace

/-- C4 (claim theorem): resizing to pixel dimensions (w, h) derives the
grid by integer division by the glyph cell size, allocates a fresh buffer
of exactly `nRows * nCols` cell records whose content does not depend on
the previous frame (which the pure model leaves untouched), and every
cell index the rasterization pass derives from an in-grid position is
within that buffer. -/
theorem C4_resize_geometry (pri : Font) (f : Frame) (w h : Nat) :
    (resize pri f w h).nCols = w / pri.getPx ∧
    (resize pri f w h).nRows = h / pri.getPy ∧
    (resize pri f w h).cells.length =
      (resize pri f w h).nRows * (resize pri f w h).nCols ∧
    (∀ g : Frame, resize pri g w h = resize pri f w h) ∧
    (∀ r c : Nat, r < (resize pri f w h).nRows →
      c < (resize pri f w h).nCols →
      r * (resize pri f w h).nCols + c < (resize pri f w h).cells.length) := by
  refine ⟨rfl, rfl, by simp [resize], fun g => rfl, ?_⟩
  intro r c hr hc
  simp only [resize, List.length_replicate] at hr hc ⊢
  calc r * (w / pri.getPx) + c
      < r * (w / pri.getPx) + (w / pri.getPx) := by omega
    _ = (r + 1) * (w / pri.getPx) := by ring
    _ ≤ (h / pri.getPy) * (w / pri.getPx) :=
        Nat.mul_le_mul_right _ (by omega)

/-- C5 (claim theorem): every Cell record lays out as exactly 12 bytes —
a 16-bit code point in the leading halfword, a packed attribute field in
which the bold, underline and inverse bits are each settable without
affecting the other two, a foreground color and a background color. -/
theorem C5_cell_record (c : Cell) (b : Bool) :
    c.toBytes.length = 12 ∧
    (c.uc_pt < 65536 →
      c.toBytes.getD 0 0 + 256 * c.toBytes.getD 1 0 = c.uc_pt) ∧
    ((c.setBold b).bold = b ∧ (c.setBold b).underline = c.underline ∧
      (c.setBold b).inverse = c.inverse) ∧
    ((c.setUnderline b).underline = b ∧ (c.setUnderline b).bold = c.bold ∧
      (c.setUnderline b).inverse = c.inverse) ∧
    ((c.setInverse b).inverse = b ∧ (c.setInverse b).bold = c.bold ∧
      (c.setInverse b).underline = c.underline) := by
  refine ⟨Cell.toBytes_length c, ?_,
    ⟨Cell.bold_setBold c b, Cell.underline_setBold c b,
      Cell.inverse_setBold c b⟩,
    ⟨Cell.underline_setUnderline c b, Cell.bold_setUnderline c b,
      Cell.inverse_setUnderline c b⟩,
    ⟨Cell.inverse_setInverse c b, Cell.bold_setInverse c b,
      Cell.underline_setInverse c b⟩⟩
  intro hlt
  simp only [Cell.toBytes, Color.toBytes, List.cons_append, List.nil_append,
    List.getD_cons_zero, List.getD_cons_succ]
  omega

/-- C6 (claim theorem): the built atlas map assigns cells in monotonically
increasing sequence order starting at 1 (cell (0,0) stays the reserved
blank), each newly discovered code point taking the next free grid slot in
(x, y) order, in insertion order of first encounter — `newCodes` keeps the
first-encounter order of the face's code points, and `assignFrom` hands
out `seqPos nx 1, seqPos nx 2, …` in that order. -/
theorem C6_sequencing (face : Face) :
    (mkFont face).atlasMap =
      assignFrom (mkFont face).nx 1
        (newCodes [] (face.glyphs.map (fun g => g.1))) ∧
    (mkFont face).atlas_seq = (mkFont face).atlasMap.length + 1 ∧
    (mkFont face).atlasCells ⟨0, 0⟩ = blankGlyph face.px face.py := by
  refine ⟨mkFont_map_shape face, ?_, mkFont_blank_cell face⟩
  rw [mkFont_atlas_seq, mkFont_atlasMap, loadResult]
  exact foldl_loadStep_seq (atlasGrid face.glyphs.length).1 face.glyphs
    (initSt face.px face.py) (by simp [initSt])

/-- C7 (claim theorem): with the default 80×25 character geometry and a
primary font whose glyph cell is 9×18 pixels, the window surface created
by main is exactly 720×450 pixels, i.e. `geomCols * px` by
`geomRows * py`. -/
theorem C7_surface_size (pri : Font) (hx : pri.getPx = 9)
    (hy : pri.getPy = 18) :
    winWidth geomCols pri = 720 ∧ winHeight geomRows pri = 450 ∧
    winWidth geomCols pri = geomCols * pri.getPx ∧
    winHeight geomRows pri = geomRows * pri.getPy := by
  refine ⟨?_, ?_, rfl, rfl⟩ <;> simp [winWidth, winHeight, geomCols,
    geomRows, hx, hy]

/-- C8 (claim theorem): the supported-codes accessor returns exactly the
key set of the code-point map restricted to entries whose position is not
the (0,0) sentinel — for a primary font and for any alternate built over
it. -/
theorem C8_supported_codes (face altFace : Face) :
    (mkFont face).getSupportedCodes =
      ((mkFont face).getAtlasMap.filter
        (fun e => decide (e.2 ≠ ⟨0, 0⟩))).map (fun e => e.1) ∧
    (∀ g : Font, mkAlt altFace (mkFont face) = .ok g →
      g.getSupportedCodes =
        (g.getAtlasMap.filter
          (fun e => decide (e.2 ≠ ⟨0, 0⟩))).map (fun e => e.1)) := by
  have hfull : ((mkFont face).atlasMap.filter
      (fun e => decide (e.2 ≠ ⟨0, 0⟩))) = (mkFont face).atlasMap :=
    List.filter_eq_self.mpr (fun e he =>
      decide_eq_true (mkFont_pos_ne_blank face e he))
  constructor
  · rw [Font.getSupportedCodes, Font.getAtlasMap, hfull]
    exact mkFont_supportedCodes face
  · intro g hg
    have hg_eq := mkAlt_ok_eq altFace (mkFont face) g hg
    subst hg_eq
    rw [Font.getSupportedCodes, Font.getAtlasMap]
    rw [show ({ mkFont face with
        atlasCells := overlayCells altFace (mkFont face) } : Font).atlasMap
      = (mkFont face).atlasMap from rfl]
    rw [show ({ mkFont face with
        atlasCells := overlayCells altFace (mkFont face) } : Font).supportedCodes
      = (mkFont face).supportedCodes from rfl]
    rw [hfull]
    exact mkFont_supportedCodes face

lemma rasterize_congr (s1 s2 : RendererState) (h1 : s1.pri = s2.pri)
    (h2 : s1.alt = s2.alt) (h3 : s1.frame = s2.frame) :
    rasterize s1 = rasterize s2 := by
  rw [rasterize, rasterize, h1, h2, h3]

/-- C9 (claim theorem): two successive render passes over the same
published frame present identical output (the draw counter alone
advances); more generally the presented output is a function only of the
frame and the two loaded atlases, never of the draw counter. -/
theorem C9_update_deterministic (s : RendererState) (f : Frame) :
    (renderPass ((s.update f))).2 =
      (renderPass (((renderPass (s.update f)).1).update f)).2 ∧
    (renderPass (s.update f)).1.drawCount = s.drawCount + 1 ∧
    (∀ s' : RendererState, s'.pri = s.pri → s'.alt = s.alt →
      s'.frame = f → (renderPass s').2 = (renderPass (s.update f)).2) := by
  refine ⟨?_, rfl, ?_⟩
  · exact rasterize_congr (s.update f)
      (((renderPass (s.update f)).1).update f) rfl rfl rfl
  · intro s' h1 h2 h3
    exact rasterize_congr s' (s.update f) h1 h2 h3

/-- C10 (claim theorem): the Color record stores its channels in
declaration order red, blue, green — blue before green — so in the
serialized 12-byte cell record the foreground occupies bytes 4..6 as
R, B, G and the background bytes 8..10 as R, B, G. -/
theorem C10_color_byte_order (c : Cell) :
    c.toBytes.getD 4 0 = c.fg.red % 256 ∧
    c.toBytes.getD 5 0 = c.fg.blue % 256 ∧
    c.toBytes.getD 6 0 = c.fg.green % 256 ∧
    c.toBytes.getD 8 0 = c.bg.red % 256 ∧
    c.toBytes.getD 9 0 = c.bg.blue % 256 ∧
    c.toBytes.getD 10 0 = c.bg.green % 256 := by
  refine ⟨?_, ?_, ?_, ?_, ?_, ?_⟩ <;>
    simp [Cell.toBytes, Color.toBytes, List.getD]

/-- Concrete instantiation of the C1 theorem: one-glyph primary and
alternate faces over a 1×1 glyph cell; code point 66 is in neither. -/
theorem C1_witness :
    atlasLookup ({ mkFont ⟨1, 1, [(65, [7])]⟩ with
      atlasCells := overlayCells ⟨1, 1, [(65, [9])]⟩
        (mkFont ⟨1, 1, [(65, [7])]⟩) } : Font).atlasMap 66 = ⟨0, 0⟩ ∧
    (∀ e ∈ ({ mkFont ⟨1, 1, [(65, [7])]⟩ with
      atlasCells := overlayCells ⟨1, 1, [(65, [9])]⟩
        (mkFont ⟨1, 1, [(65, [7])]⟩) } : Font).atlasMap, e.2 ≠ ⟨0, 0⟩) ∧
    ({ mkFont ⟨1, 1, [(65, [7])]⟩ with
      atlasCells := overlayCells ⟨1, 1, [(65, [9])]⟩
        (mkFont ⟨1, 1, [(65, [7])]⟩) } : Font).atlasCells ⟨0, 0⟩ =
      blankGlyph 1 1 ∧
    (∀ i, renderCellPixel ({ mkFont ⟨1, 1, [(65, [7])]⟩ with
      atlasCells := overlayCells ⟨1, 1, [(65, [9])]⟩
        (mkFont ⟨1, 1, [(65, [7])]⟩) } : Font)
      ⟨66, 0, ⟨1, 2, 3⟩, 0, ⟨4, 5, 6⟩, 0⟩ i = ⟨4, 5, 6⟩) :=
  C1_missing_glyph_blank ⟨1, 1, [(65, [7])]⟩ ⟨1, 1, [(65, [9])]⟩ _
    rfl 66 (by decide) (by decide) ⟨66, 0, ⟨1, 2, 3⟩, 0, ⟨4, 5, 6⟩, 0⟩
    rfl rfl

/-- Concrete instantiation of the C2 theorem: an 8×16 alternate face over
a 9×18 primary font is a geometry mismatch and fails. -/
theorem C2_witness :
    mkAlt ⟨8, 16, []⟩ (mkFont ⟨9, 18, []⟩) =
      .error ("Error: failed to load alt font: geometry mismatch") ∧
    ∀ g : Font, mkAlt ⟨8, 16, []⟩ (mkFont ⟨9, 18, []⟩) ≠ .ok g :=
  C2_alt_geometry_mismatch ⟨8, 16, []⟩ (mkFont ⟨9, 18, []⟩) (by decide)

/-- Concrete instantiation of the C3 theorem, with the same one-glyph
faces as the C1 witness. -/
theorem C3_witness :
    ({ mkFont ⟨1, 1, [(65, [7])]⟩ with
      atlasCells := overlayCells ⟨1, 1, [(65, [9])]⟩
        (mkFont ⟨1, 1, [(65, [7])]⟩) } : Font).atlasMap =
      (mkFont ⟨1, 1, [(65, [7])]⟩).atlasMap ∧
    ({ mkFont ⟨1, 1, [(65, [7])]⟩ with
      atlasCells := overlayCells ⟨1, 1, [(65, [9])]⟩
        (mkFont ⟨1, 1, [(65, [7])]⟩) } : Font).supportedCodes =
      (mkFont ⟨1, 1, [(65, [7])]⟩).supportedCodes ∧
    (∀ cp bmp, (cp, bmp) ∈ ([(65, [9])] : List (Nat × List Nat)) →
      ∀ pos, lookupPos (mkFont ⟨1, 1, [(65, [7])]⟩).atlasMap cp = some pos →
        ({ mkFont ⟨1, 1, [(65, [7])]⟩ with
          atlasCells := overlayCells ⟨1, 1, [(65, [9])]⟩
            (mkFont ⟨1, 1, [(65, [7])]⟩) } : Font).atlasCells pos = bmp ∧
        glyphAt ({ mkFont ⟨1, 1, [(65, [7])]⟩ with
          atlasCells := overlayCells ⟨1, 1, [(65, [9])]⟩
            (mkFont ⟨1, 1, [(65, [7])]⟩) } : Font) cp = bmp) ∧
    (∀ cp, cp ∉ ([(65, [9])] : List (Nat × List Nat)).map (fun g => g.1) →
      glyphAt ({ mkFont ⟨1, 1, [(65, [7])]⟩ with
        atlasCells := overlayCells ⟨1, 1, [(65, [9])]⟩
          (mkFont ⟨1, 1, [(65, [7])]⟩) } : Font) cp =
        glyphAt (mkFont ⟨1, 1, [(65, [7])]⟩) cp) ∧
    (∀ cp, cp ∉ ([(65, [9])] : List (Nat × List Nat)).map (fun g => g.1) →
      cp ∉ ([(65, [7])] : List (Nat × List Nat)).map (fun g => g.1) →
      glyphAt ({ mkFont ⟨1, 1, [(65, [7])]⟩ with
        atlasCells := overlayCells ⟨1, 1, [(65, [9])]⟩
          (mkFont ⟨1, 1, [(65, [7])]⟩) } : Font) cp = blankGlyph 1 1) :=
  C3_alt_overlay_merge ⟨1, 1, [(65, [7])]⟩ ⟨1, 1, [(65, [9])]⟩ _ rfl
    (by decide)

/-- Concrete instantiation of the C4 theorem: resizing to 720×450 with a
9×18 font. -/
theorem C4_witness :
    (resize (mkFont ⟨9, 18, []⟩) ⟨0, 0, 0, 0, []⟩ 720 450).nCols =
      720 / (mkFont ⟨9, 18, []⟩).getPx ∧
    (resize (mkFont ⟨9, 18, []⟩) ⟨0, 0, 0, 0, []⟩ 720 450).nRows =
      450 / (mkFont ⟨9, 18, []⟩).getPy ∧
    (resize (mkFont ⟨9, 18, []⟩) ⟨0, 0, 0, 0, []⟩ 720 450).cells.length =
      (resize (mkFont ⟨9, 18, []⟩) ⟨0, 0, 0, 0, []⟩ 720 450).nRows *
        (resize (mkFont ⟨9, 18, []⟩) ⟨0, 0, 0, 0, []⟩ 720 450).nCols ∧
    (∀ g : Frame, resize (mkFont ⟨9, 18, []⟩) g 720 450 =
      resize (mkFont ⟨9, 18, []⟩) ⟨0, 0, 0, 0, []⟩ 720 450) ∧
    (∀ r c : Nat,
      r < (resize (mkFont ⟨9, 18, []⟩) ⟨0, 0, 0, 0, []⟩ 720 450).nRows →
      c < (resize (mkFont ⟨9, 18, []⟩) ⟨0, 0, 0, 0, []⟩ 720 450).nCols →
      r * (resize (mkFont ⟨9, 18, []⟩) ⟨0, 0, 0, 0, []⟩ 720 450).nCols + c <
        (resize (mkFont ⟨9, 18, []⟩) ⟨0, 0, 0, 0, []⟩ 720 450).cells.length) :=
  C4_resize_geometry (mkFont ⟨9, 18, []⟩) ⟨0, 0, 0, 0, []⟩ 720 450

/-- Concrete instantiation of the C5 theorem at one cell value. -/
theorem C5_witness :
    (⟨321, 0, ⟨1, 2, 3⟩, 0, ⟨4, 5, 6⟩, 0⟩ : Cell).toBytes.length = 12 ∧
    ((⟨321, 0, ⟨1, 2, 3⟩, 0, ⟨4, 5, 6⟩, 0⟩ : Cell).uc_pt < 65536 →
      (⟨321, 0, ⟨1, 2, 3⟩, 0, ⟨4, 5, 6⟩, 0⟩ : Cell).toBytes.getD 0 0 +
        256 * (⟨321, 0, ⟨1, 2, 3⟩, 0, ⟨4, 5, 6⟩, 0⟩ : Cell).toBytes.getD 1 0 =
        (⟨321, 0, ⟨1, 2, 3⟩, 0, ⟨4, 5, 6⟩, 0⟩ : Cell).uc_pt) ∧
    (((⟨321, 0, ⟨1, 2, 3⟩, 0, ⟨4, 5, 6⟩, 0⟩ : Cell).setBold true).bold = true ∧
      ((⟨321, 0, ⟨1, 2, 3⟩, 0, ⟨4, 5, 6⟩, 0⟩ : Cell).setBold true).underline =
        (⟨321, 0, ⟨1, 2, 3⟩, 0, ⟨4, 5, 6⟩, 0⟩ : Cell).underline ∧
      ((⟨321, 0, ⟨1, 2, 3⟩, 0, ⟨4, 5, 6⟩, 0⟩ : Cell).setBold true).inverse =
        (⟨321, 0, ⟨1, 2, 3⟩, 0, ⟨4, 5, 6⟩, 0⟩ : Cell).inverse) ∧
    (((⟨321, 0, ⟨1, 2, 3⟩, 0, ⟨4, 5, 6⟩, 0⟩ : Cell).setUnderline true).underline = true ∧
      ((⟨321, 0, ⟨1, 2, 3⟩, 0, ⟨4, 5, 6⟩, 0⟩ : Cell).setUnderline true).bold =
        (⟨321, 0, ⟨1, 2, 3⟩, 0, ⟨4, 5, 6⟩, 0⟩ : Cell).bold ∧
      ((⟨321, 0, ⟨1, 2, 3⟩, 0, ⟨4, 5, 6⟩, 0⟩ : Cell).setUnderline true).inverse =
        (⟨321, 0, ⟨1, 2, 3⟩, 0, ⟨4, 5, 6⟩, 0⟩ : Cell).inverse) ∧
    (((⟨321, 0, ⟨1, 2, 3⟩, 0, ⟨4, 5, 6⟩, 0⟩ : Cell).setInverse true).inverse = true ∧
      ((⟨321, 0, ⟨1, 2, 3⟩, 0, ⟨4, 5, 6⟩, 0⟩ : Cell).setInverse true).bold =
        (⟨321, 0, ⟨1, 2, 3⟩, 0, ⟨4, 5, 6⟩, 0⟩ : Cell).bold ∧
      ((⟨321, 0, ⟨1, 2, 3⟩, 0, ⟨4, 5, 6⟩, 0⟩ : Cell).setInverse true).underline =
        (⟨321, 0, ⟨1, 2, 3⟩, 0, ⟨4, 5, 6⟩, 0⟩ : Cell).underline) :=
  C5_cell_record ⟨321, 0, ⟨1, 2, 3⟩, 0, ⟨4, 5, 6⟩, 0⟩ true

/-- Concrete instantiation of the C7 theorem: a primary font with a 9×18
glyph cell gives a 720×450 surface at the default 80×25 geometry. -/
theorem C7_witness :
    winWidth geomCols (mkFont ⟨9, 18, []⟩) = 720 ∧
    winHeight geomRows (mkFont ⟨9, 18, []⟩) = 450 ∧
    winWidth geomCols (mkFont ⟨9, 18, []⟩) =
      geomCols * (mkFont ⟨9, 18, []⟩).getPx ∧
    winHeight geomRows (mkFont ⟨9, 18, []⟩) =
      geomRows * (mkFont ⟨9, 18, []⟩).getPy :=
  C7_surface_size (mkFont ⟨9, 18, []⟩) rfl rfl

/-- Concrete instantiation of the C8 theorem with the same faces as the
C1 witness. -/
theorem C8_witness :
    (mkFont ⟨1, 1, [(65, [7])]⟩).getSupportedCodes =
      ((mkFont ⟨1, 1, [(65, [7])]⟩).getAtlasMap.filter
        (fun e => decide (e.2 ≠ ⟨0, 0⟩))).map (fun e => e.1) ∧
    (∀ g : Font, mkAlt ⟨1, 1, [(65, [9])]⟩ (mkFont ⟨1, 1, [(65, [7])]⟩) =
        .ok g →
      g.getSupportedCodes =
        (g.getAtlasMap.filter
          (fun e => decide (e.2 ≠ ⟨0, 0⟩))).map (fun e => e.1)) :=
  C8_supported_codes ⟨1, 1, [(65, [7])]⟩ ⟨1, 1, [(65, [9])]⟩

/-- Concrete instantiation of the C9 theorem at a small renderer state
and frame. -/
theorem C9_witness :
    (renderPass ((RendererState.update
        ⟨mkFont ⟨1, 1, [(65, [7])]⟩, mkFont ⟨1, 1, [(65, [7])]⟩,
          ⟨0, 0, 0, 0, []⟩, 0⟩
        ⟨2, 2, 2, 2, List.replicate 4 defaultCell⟩))).2 =
      (renderPass (((renderPass ((RendererState.update
        ⟨mkFont ⟨1, 1, [(65, [7])]⟩, mkFont ⟨1, 1, [(65, [7])]⟩,
          ⟨0, 0, 0, 0, []⟩, 0⟩
        ⟨2, 2, 2, 2, List.replicate 4 defaultCell⟩))).1).update
          ⟨2, 2, 2, 2, List.replicate 4 defaultCell⟩)).2 ∧
    (renderPass ((RendererState.update
        ⟨mkFont ⟨1, 1, [(65, [7])]⟩, mkFont ⟨1, 1, [(65, [7])]⟩,
          ⟨0, 0, 0, 0, []⟩, 0⟩
        ⟨2, 2, 2, 2, List.replicate 4 defaultCell⟩))).1.drawCount = 0 + 1 ∧
    (∀ s' : RendererState,
      s'.pri = (⟨mkFont ⟨1, 1, [(65, [7])]⟩, mkFont ⟨1, 1, [(65, [7])]⟩,
          ⟨0, 0, 0, 0, []⟩, 0⟩ : RendererState).pri →
      s'.alt = (⟨mkFont ⟨1, 1, [(65, [7])]⟩, mkFont ⟨1, 1, [(65, [7])]⟩,
          ⟨0, 0, 0, 0, []⟩, 0⟩ : RendererState).alt →
      s'.frame = ⟨2, 2, 2, 2, List.replicate 4 defaultCell⟩ →
      (renderPass s').2 =
        (renderPass ((RendererState.update
          ⟨mkFont ⟨1, 1, [(65, [7])]⟩, mkFont ⟨1, 1, [(65, [7])]⟩,
            ⟨0, 0, 0, 0, []⟩, 0⟩
          ⟨2, 2, 2, 2, List.replicate 4 defaultCell⟩))).2) :=
  C9_update_deterministic
    ⟨mkFont ⟨1, 1, [(65, [7])]⟩, mkFont ⟨1, 1, [(65, [7])]⟩,
      ⟨0, 0, 0, 0, []⟩, 0⟩
    ⟨2, 2, 2, 2, List.replicate 4 defaultCell⟩

end Zutty
